import Mathlib

/-!
Verification of the resource-arbitration core of the RedNote-MCP repository:
TTL cache, admission gate (rate limiter), retry executor, public content
operations, singleton coordinator, session (browser) manager, comment
extraction pipeline, and publish-note input validation.

Each definition is a shallow embedding of the corresponding TypeScript
function; machine time (Date.now) is modelled as a Nat parameter, JS `await`
suspension points become explicit parameters (timer slack), and fallible
operations return `Except String`.
-/

/-! ## TTL cache (RedNoteTools.getCachedContent / setCachedContent) -/

/-- CACHE_TTL = 30 * 60 * 1000 (30 minutes), from `rednoteTools.ts`. -/
def CACHE_TTL : Nat := 30 * 60 * 1000

/-- One entry of `contentCache`: `{ data, timestamp }`. -/
structure CacheEntry (α : Type) where
  data : α
  timestamp : Nat
deriving Repr, DecidableEq

/-- The `contentCache` Map, modelled as an association list keyed by string. -/
def CacheMap (α : Type) : Type := List (String × CacheEntry α)

/-- Lookup (`Map.get`) on the cache. -/
def cacheFind {α : Type} : CacheMap α → String → Option (CacheEntry α)
  | [], _ => none
  | (k, e) :: rest, key => if k = key then some e else cacheFind rest key

/-- Model of `getCachedContent`: returns the data if an entry exists and
`now - timestamp < CACHE_TTL`, else null.  Reads only; never mutates. -/
def getCachedContent {α : Type} (c : CacheMap α) (key : String) (now : Nat) :
    Option α :=
  match cacheFind c key with
  | some e => if now - e.timestamp < CACHE_TTL then some e.data else none
  | none => none

/-- Model of `setCachedContent`: `Map.set` with a fresh `{ data, timestamp: Date.now() }`,
overwriting any existing entry for the key. -/
def setCachedContent {α : Type} : CacheMap α → String → α → Nat → CacheMap α
  | [], key, d, now => [(key, ⟨d, now⟩)]
  | (k, e) :: rest, key, d, now =>
    if k = key then (k, ⟨d, now⟩) :: rest
    else (k, e) :: setCachedContent rest key d now

/-! ## Admission gate (RedNoteTools.checkRateLimit) -/

/-- MIN_INTERVAL = 10000 ms. -/
def MIN_INTERVAL : Nat := 10000

/-- MAX_REQUESTS_PER_HOUR = 20. -/
def MAX_REQUESTS_PER_HOUR : Nat := 20

/-- One hour in milliseconds, the rolling window of the gate. -/
def HOUR_MS : Nat := 3600000

/-- The static rate-limiting state of `RedNoteTools`. -/
structure RLState where
  lastRequestTime : Nat
  requestTimestamps : List Nat
  requestCount : Nat
deriving Repr, DecidableEq

/-- Initial static state (fields start at 0 / empty). -/
def rlInit : RLState := ⟨0, [], 0⟩

/-- Result of one `checkRateLimit` call: the new static state, the recorded
timestamp (the `Date.now()` read after all suspensions), and the two waits. -/
structure RLResult where
  state : RLState
  recordTime : Nat
  hourlyWait : Nat
  intervalWait : Nat
deriving Repr, DecidableEq

/-- The pruning step of `checkRateLimit`: keep only timestamps from the
last hour (`now - timestamp < 3600000`). -/
def prunedOf (s : RLState) (now : Nat) : List Nat :=
  s.requestTimestamps.filter (fun t => now - t < HOUR_MS)

/-- The hourly-quota wait: `3600000 - (now - oldestRequest) + 1000` when the
pruned count has reached the quota, zero otherwise. -/
def hourlyWaitOf (s : RLState) (now : Nat) : Nat :=
  if MAX_REQUESTS_PER_HOUR ≤ (prunedOf s now).length then
    HOUR_MS - (now - (prunedOf s now).headD 0) + 1000
  else 0

/-- The minimum-interval wait: the remaining part of MIN_INTERVAL since the
last request (computed from the same pre-wait `now`). -/
def intervalWaitOf (s : RLState) (now : Nat) : Nat :=
  if now - s.lastRequestTime < MIN_INTERVAL then
    MIN_INTERVAL - (now - s.lastRequestTime)
  else 0

/-- Model of `checkRateLimit`: prune timestamps older than one hour; if the pruned
count reaches MAX_REQUESTS_PER_HOUR wait the hourly wait; independently, if
`now - lastRequestTime < MIN_INTERVAL` wait the remaining interval; then
re-read the clock (`now + hourlyWait + intervalWait + slack`, where `slack`
models extra timer latency since `setTimeout` never fires early) and record
it. -/
def checkRateLimit (s : RLState) (now slack : Nat) : RLResult :=
  let pruned := prunedOf s now
  let recordTime := now + hourlyWaitOf s now + intervalWaitOf s now + slack
  { state :=
      { lastRequestTime := recordTime
        requestTimestamps := pruned ++ [recordTime]
        requestCount := s.requestCount + 1 }
    recordTime := recordTime
    hourlyWait := hourlyWaitOf s now
    intervalWait := intervalWaitOf s now }

/-- A sequence of sequential admission checks.  Each element `(gap, slack)`
says the check is issued `gap` ms after the previous recorded timestamp and
its timers fire with `slack` ms extra latency.  Returns the final state and
the list of recorded (granted) timestamps. -/
def runChecks : RLState → List (Nat × Nat) → RLState × List Nat
  | s, [] => (s, [])
  | s, (gap, slack) :: rest =>
    let res := checkRateLimit s (s.lastRequestTime + gap) slack
    let (sf, rs) := runChecks res.state rest
    (sf, res.recordTime :: rs)

/-- Number of stored timestamps still inside the rolling hour as of the
state's own `lastRequestTime`. -/
def inWindowCount (s : RLState) : Nat :=
  (s.requestTimestamps.filter (fun t => s.lastRequestTime - t < HOUR_MS)).length

/-- Invariant of the rate-limiter state: every stored timestamp is at most
`lastRequestTime`, and at most 20 of them lie inside the rolling hour. -/
def RLInv (s : RLState) : Prop :=
  (∀ t ∈ s.requestTimestamps, t ≤ s.lastRequestTime) ∧
  inWindowCount s ≤ MAX_REQUESTS_PER_HOUR

/-! ## Retry executor (RedNoteTools.retryWithBackoff) -/

/-- The attempt loop of `retryWithBackoff`, with the remaining attempt budget
as fuel: attempt `attempt` runs, and `r + 1` attempts remain in total (so
`r = 0` means this is the final attempt, whose error is rethrown as-is).
Also returns the list of attempt numbers that actually ran. -/
def retryGo {α : Type} (op : Nat → Except String α) (operationName : String) :
    Nat → Nat → Except String α × List Nat
  | _, 0 => (.error ("Max retries exceeded for " ++ operationName), [])
  | attempt, r + 1 =>
    match op attempt with
    | .ok a => (.ok a, [attempt])
    | .error e =>
      if r = 0 then (.error e, [attempt])
      else
        let (res, tr) := retryGo op operationName (attempt + 1) r
        (res, attempt :: tr)

/-- Model of `retryWithBackoff(operation, operationName, maxRetries)`: attempts are
numbered from 1; on the final failed attempt the caught error is rethrown. -/
def retryWithBackoff {α : Type} (op : Nat → Except String α)
    (operationName : String) (maxRetries : Nat) : Except String α × List Nat :=
  retryGo op operationName 1 maxRetries

/-! ## Public content operations (searchNotes / getNoteContent / getNoteComments)

Each operation: compute the cache key, check the cache, on a miss run
`checkRateLimit` and then the retry-wrapped fetch (browser work is the opaque
`fetch`, indexed by attempt number), caching a successful result.  The trace
records the externally observable steps in program order. -/

/-- Observable steps of a content operation, in program order. -/
inductive OpEvent where
  | cacheCheck (key : String)
  | rateLimitCheck
  | fetchAttempt (n : Nat)
deriving Repr, DecidableEq

/-- Shared mutable state touched by a content operation. -/
structure ToolsState (δ : Type) where
  cache : CacheMap δ
  rl : RLState

/-- Clock inputs of one content operation: the `Date.now()` at the cache
check, the one at the rate-limit check, the timer slack inside the
rate-limit waits, and the `Date.now()` at the cache store. -/
structure OpTimes where
  tCache : Nat
  tRL : Nat
  slack : Nat
  tSet : Nat

/-- Cache key of `searchNotes`. -/
def searchCacheKey (keywords : String) (limit : Nat) : String :=
  "search:" ++ keywords ++ ":" ++ toString limit

/-- Cache key of `getNoteContent`. -/
def noteCacheKey (url : String) : String := "note:" ++ url

/-- Cache key of `getNoteComments`. -/
def commentsCacheKey (url : String) : String := "comments:" ++ url

/-- Outer skeleton shared verbatim by the three content operations in
`rednoteTools.ts` (they differ only in cache key and fetch body):
cache check first, then `checkRateLimit`, then `retryWithBackoff`. -/
def contentOperation {δ : Type} (st : ToolsState δ) (cacheKey opName : String)
    (fetch : Nat → Except String δ) (tm : OpTimes) :
    Except String δ × ToolsState δ × List OpEvent :=
  match getCachedContent st.cache cacheKey tm.tCache with
  | some cached => (.ok cached, st, [.cacheCheck cacheKey])
  | none =>
    let res := checkRateLimit st.rl tm.tRL tm.slack
    let (r, attempts) := retryWithBackoff fetch opName 3
    let cache' :=
      match r with
      | .ok d => setCachedContent st.cache cacheKey d tm.tSet
      | .error _ => st.cache
    (r, ⟨cache', res.state⟩,
      .cacheCheck cacheKey :: .rateLimitCheck :: attempts.map OpEvent.fetchAttempt)

/-- Model of `searchNotes(keywords, limit)`. -/
def searchNotes {δ : Type} (st : ToolsState δ) (keywords : String) (limit : Nat)
    (fetch : Nat → Except String δ) (tm : OpTimes) :
    Except String δ × ToolsState δ × List OpEvent :=
  contentOperation st (searchCacheKey keywords limit) "searchNotes" fetch tm

/-- Model of `getNoteContent(url)`. -/
def getNoteContent {δ : Type} (st : ToolsState δ) (url : String)
    (fetch : Nat → Except String δ) (tm : OpTimes) :
    Except String δ × ToolsState δ × List OpEvent :=
  contentOperation st (noteCacheKey url) "getNoteContent" fetch tm

/-- Model of `getNoteComments(url)`. -/
def getNoteComments {δ : Type} (st : ToolsState δ) (url : String)
    (fetch : Nat → Except String δ) (tm : OpTimes) :
    Except String δ × ToolsState δ × List OpEvent :=
  contentOperation st (commentsCacheKey url) "getNoteComments" fetch tm

/-- Event `p` occurs strictly before event `q` somewhere in the trace. -/
def precedes (p q : OpEvent → Bool) (tr : List OpEvent) : Prop :=
  ∃ i j : Fin tr.length, (i : Nat) < (j : Nat) ∧
    p (tr.get i) = true ∧ q (tr.get j) = true

instance (p q : OpEvent → Bool) (tr : List OpEvent) :
    Decidable (precedes p q tr) := by
  unfold precedes; infer_instance

/-- Recognizer for rate-limit events. -/
def isRateLimitEvent : OpEvent → Bool
  | .rateLimitCheck => true
  | _ => false

/-- Recognizer for cache-check events. -/
def isCacheCheckEvent : OpEvent → Bool
  | .cacheCheck _ => true
  | _ => false

/-- Recognizer for fetch attempts. -/
def isFetchEvent : OpEvent → Bool
  | .fetchAttempt _ => true
  | _ => false

/-! ## Session manager (AuthManager.getBrowser / isBrowserValid /
cleanupBrowserInstance) -/

/-- BROWSER_TIMEOUT = 30 * 60 * 1000 (30 minutes), from `authManager.ts`. -/
def BROWSER_TIMEOUT : Nat := 30 * 60 * 1000

/-- The static browser slot of `AuthManager`: the held instance (as an
opaque id) and the last-used timestamp. -/
structure BrowserState where
  browserInstance : Option Nat
  lastUsed : Nat
deriving Repr, DecidableEq

/-- Model of `AuthManager.isBrowserValid()`: false if no instance is held, the
instance has been unused for more than BROWSER_TIMEOUT, or its liveness
probe (`isConnected`) reports disconnected. -/
def isBrowserValid (s : BrowserState) (now : Nat) (connected : Bool) : Bool :=
  match s.browserInstance with
  | none => false
  | some _ =>
    let isExpired := BROWSER_TIMEOUT < now - s.lastUsed
    if isExpired ∨ connected = false then false else true

/-- Model of `AuthManager.cleanupBrowserInstance()`: best-effort `close()` whose
error is caught and logged; the `finally` clears the static slot whether or
not the close failed (`closeFails`). -/
def cleanupBrowserInstance (s : BrowserState) (closeFails : Bool) : BrowserState :=
  match s.browserInstance with
  | none => s
  | some _ =>
    match closeFails with
    | true => { s with browserInstance := none }
    | false => { s with browserInstance := none }

/-- Model of `AuthManager.getBrowser()`: reuse the held instance (refreshing
`lastUsed`) when it is valid; otherwise clean up the old instance and launch
a fresh one (`fresh` is the id chromium.launch would return), storing it in
the static slot. -/
def getBrowser (s : BrowserState) (now : Nat) (connected closeFails : Bool)
    (fresh : Nat) : Nat × BrowserState :=
  if isBrowserValid s now connected then
    (s.browserInstance.getD 0, { s with lastUsed := now })
  else
    let s1 := cleanupBrowserInstance s closeFails
    (fresh, { s1 with browserInstance := some fresh, lastUsed := now })

/-! ## Publish-note input validation (RedNoteTools.publishNote /
validateImagePaths) -/

/-- The allowed image extensions of `validateImagePaths`. -/
def allowedExtensions : List String := ["jpg", "jpeg", "png", "gif", "webp"]

/-- JS `String.prototype.trim`: drop whitespace from both ends (modelled
over the character list so it evaluates). -/
def strTrim (s : String) : String :=
  ⟨((s.data.dropWhile Char.isWhitespace).reverse.dropWhile
      Char.isWhitespace).reverse⟩

/-- JS `String.prototype.split(sep)` for a one-character separator. -/
def splitOnChar (c : Char) : List Char → List (List Char)
  | [] => [[]]
  | x :: xs =>
    if x = c then [] :: splitOnChar c xs
    else
      match splitOnChar c xs with
      | h :: t => (x :: h) :: t
      | [] => [[x]]

/-- Model of `imagePath.toLowerCase().split('.').pop()`: the final dot-separated
component of the lower-cased path (the whole name when no dot occurs). -/
def extOf (p : String) : String :=
  ⟨(splitOnChar '.' (p.data.map Char.toLower)).getLastD []⟩

/-- The file-system facts `validateImagePaths` consults, as an oracle:
`path.resolve`, `fs.existsSync` and `stats.isFile()`. -/
structure FileSys where
  resolve : String → String
  pathExists : String → Bool
  isFile : String → Bool

/-- The per-path loop of `validateImagePaths`: resolve, check existence,
check regular-file, check extension; collect resolved paths. -/
def validateLoop (fsys : FileSys) : List String → Except String (List String)
  | [] => .ok []
  | p :: rest =>
    let resolved := fsys.resolve p
    if fsys.pathExists resolved = false then
      .error ("Image file not found: " ++ p)
    else if fsys.isFile resolved = false then
      .error ("Path is not a file: " ++ p)
    else
      let ext := extOf p
      if ext = "" ∨ allowedExtensions.contains ext = false then
        .error ("Unsupported image format: " ++ p ++
          ". Supported: jpg, jpeg, png, gif, webp")
      else
        match validateLoop fsys rest with
        | .ok v => .ok (resolved :: v)
        | .error e => .error e

/-- Model of `validateImagePaths`: run the loop, then reject more than 18 valid
images. -/
def validateImagePaths (fsys : FileSys) (imagePaths : List String) :
    Except String (List String) :=
  match validateLoop fsys imagePaths with
  | .ok validPaths =>
    if 18 < validPaths.length then .error "Maximum 18 images allowed"
    else .ok validPaths
  | .error e => .error e

/-- Model of `PublishResult` (success-path fields only, as an opaque payload). -/
structure PublishOutcome where
  success : Bool
  message : String
deriving Repr, DecidableEq

/-- Remote steps of `publishNote` after validation succeeds: each attempt of
the retry-wrapped body (which begins with `checkRateLimit` and then drives
the browser). -/
inductive PubEvent where
  | remoteAttempt (n : Nat)
deriving Repr, DecidableEq

/-- Model of `publishNote(title, content, imagePaths, tags)`: validate the title,
content and image list, then validate every image path; only after all
validation passes does the retry-wrapped remote phase (rate limit + browser
interaction, abstracted as `remote`) run. -/
def publishNote (fsys : FileSys) (title content : String)
    (imagePaths : List String) (tags : String)
    (remote : Nat → Except String PublishOutcome) :
    Except String PublishOutcome × List PubEvent :=
  if strTrim title = "" then (.error "Note title cannot be empty", [])
  else if strTrim content = "" then (.error "Note content cannot be empty", [])
  else if imagePaths.isEmpty then (.error "At least one image is required", [])
  else
    match validateImagePaths fsys imagePaths with
    | .error e => (.error e, [])
    | .ok _ =>
      let (r, attempts) := retryWithBackoff remote "publishNote" 3
      (r, attempts.map PubEvent.remoteAttempt)

/-! ## Comment extraction pipeline (the in-page strategies of
getNoteComments)

The DOM is external input; a page is modelled by the answers its selector
queries return: per-dialog item lists for strategy 1, a whole-document
selector query for strategy 2, and the full element list for strategy 3. -/

/-- A DOM element as the extraction code observes it. -/
structure Elem where
  textContent : String
  className : String
  dataTestid : String
deriving Repr, DecidableEq

/-- Does `pat` occur at the head of `l`? -/
def listHasPrefix : List Char → List Char → Bool
  | [], _ => true
  | _ :: _, [] => false
  | p :: ps, x :: xs => p = x && listHasPrefix ps xs

/-- Does `pat` occur anywhere inside `l`? -/
def listContainsSub (pat : List Char) : List Char → Bool
  | [] => listHasPrefix pat []
  | x :: xs => listHasPrefix pat (x :: xs) || listContainsSub pat xs

/-- Substring containment (JS `String.prototype.includes`), modelled over
the character lists so it evaluates. -/
def strContains (s pat : String) : Bool := listContainsSub pat.data s.data

/-- A loaded note page, observed through its selector queries. -/
structure CommentPage where
  dialogItems : List (List Elem)
  selectorQuery : String → List Elem
  allElements : List Elem

/-- Strategy 1: iterate the dialogs; the first dialog whose item query is
non-empty wins; null otherwise. -/
def strategy1 (p : CommentPage) : Option (List Elem) :=
  go p.dialogItems
where
  go : List (List Elem) → Option (List Elem)
    | [] => none
    | items :: rest => if 0 < items.length then some items else go rest

/-- The selector list of strategy 2, in source order. -/
def strategy2Selectors : List String :=
  ["[role=\"dialog\"] [role=\"list\"] [role=\"listitem\"]",
   ".comment-list .comment-item",
   ".comments-container .comment",
   "[data-testid=\"comment-item\"]",
   ".note-comments .comment",
   ".detail-comments .comment"]

/-- Strategy 2: the first whole-document selector with a non-empty result
wins; null otherwise. -/
def strategy2 (p : CommentPage) : Option (List Elem) :=
  go strategy2Selectors
where
  go : List String → Option (List Elem)
    | [] => none
    | sel :: rest =>
      let items := p.selectorQuery sel
      if 0 < items.length then some items else go rest

/-- The element filter of strategy 3: short non-empty text and a
comment-like or user-like class or data-testid. -/
def commentLike (e : Elem) : Bool :=
  (0 < e.textContent.length && e.textContent.length < 500) &&
  (strContains e.className "comment" || strContains e.dataTestid "comment" ||
   strContains e.className "user" || strContains e.dataTestid "user")

/-- Strategy 3: scan every element for comment-like content; null when the
scan finds nothing. -/
def strategy3 (p : CommentPage) : Option (List Elem) :=
  let commentElements := p.allElements.filter commentLike
  if 0 < commentElements.length then some commentElements else none

/-- The strategy loop: `items = strategies[i]()`, first result with
`items && items.length > 0` wins, recording the 1-based strategy number. -/
def tryStrategies (ss : List (CommentPage → Option (List Elem)))
    (p : CommentPage) (idx : Nat) : Option (Nat × List Elem) :=
  match ss with
  | [] => none
  | f :: rest =>
    match f p with
    | some items =>
      if 0 < items.length then some (idx, items)
      else tryStrategies rest p (idx + 1)
    | none => tryStrategies rest p (idx + 1)

/-- The whole-collection phase of the comment extraction: try strategies
1, 2, 3 in fixed order. -/
def selectCommentItems (p : CommentPage) : Option (Nat × List Elem) :=
  tryStrategies [strategy1, strategy2, strategy3] p 1

/-! ## Singleton coordinator (getRedNoteTools, cli.ts)

A caller of `getRedNoteTools` is a cooperative task; the scheduler runs
exactly one task at a time and may switch only at `await` points (the poll
sleep and `await initialize()`).  The synchronous blocks between awaits are
the atomic transitions below, read off the source:

* entry: `if (!globalRedNoteTools)`, then either return the instance, enter
  the poll loop (flag set), or set the flag, assign
  `globalRedNoteTools = new RedNoteTools()` and start `initialize()`;
* a poll wake: re-check the flag, then either sleep again, return the
  instance, or fall through and start a construction of its own;
* `initialize()` settling: the `finally` clears the flag; on success the
  task returns `globalRedNoteTools`, on failure the exception propagates
  (slot untouched). -/

/-- Where one caller of `getRedNoteTools` stands. -/
inductive TaskPC where
  | start
  | polling
  | initializing
  | done (result : Option Nat)
  | failed
deriving Repr, DecidableEq

/-- The module-level mutable state of `cli.ts`: the `globalRedNoteTools`
slot (instances numbered from 0), the `isInitializing` flag, and the number
of constructions started so far. -/
structure GState where
  globalTools : Option Nat
  isInitializing : Bool
  nextId : Nat
deriving Repr, DecidableEq

/-- A configuration: shared state plus the program counter of every task. -/
structure CoordConfig where
  g : GState
  tasks : List TaskPC
deriving Repr, DecidableEq

/-- All `C` callers at the entry of `getRedNoteTools`, no instance, flag
clear. -/
def initCoordConfig (callers : Nat) : CoordConfig :=
  ⟨⟨none, false, 0⟩, List.replicate callers .start⟩

/-- One atomic step of task `i`.  The Bool label marks the step in which a
construction's `initialize()` fails. -/
inductive CoordStep : CoordConfig → Nat → Bool → CoordConfig → Prop where
  | startFast (c : CoordConfig) (i id : Nat) :
      c.tasks.get? i = some .start → c.g.globalTools = some id →
      CoordStep c i false ⟨c.g, c.tasks.set i (.done (some id))⟩
  | startPoll (c : CoordConfig) (i : Nat) :
      c.tasks.get? i = some .start → c.g.globalTools = none →
      c.g.isInitializing = true →
      CoordStep c i false ⟨c.g, c.tasks.set i .polling⟩
  | startConstruct (c : CoordConfig) (i : Nat) :
      c.tasks.get? i = some .start → c.g.globalTools = none →
      c.g.isInitializing = false →
      CoordStep c i false
        ⟨⟨some c.g.nextId, true, c.g.nextId + 1⟩, c.tasks.set i .initializing⟩
  | pollWait (c : CoordConfig) (i : Nat) :
      c.tasks.get? i = some .polling → c.g.isInitializing = true →
      CoordStep c i false ⟨c.g, c.tasks.set i .polling⟩
  | pollDone (c : CoordConfig) (i id : Nat) :
      c.tasks.get? i = some .polling → c.g.isInitializing = false →
      c.g.globalTools = some id →
      CoordStep c i false ⟨c.g, c.tasks.set i (.done (some id))⟩
  | pollConstruct (c : CoordConfig) (i : Nat) :
      c.tasks.get? i = some .polling → c.g.isInitializing = false →
      c.g.globalTools = none →
      CoordStep c i false
        ⟨⟨some c.g.nextId, true, c.g.nextId + 1⟩, c.tasks.set i .initializing⟩
  | initOk (c : CoordConfig) (i : Nat) :
      c.tasks.get? i = some .initializing →
      CoordStep c i false
        ⟨⟨c.g.globalTools, false, c.g.nextId⟩,
          c.tasks.set i (.done c.g.globalTools)⟩
  | initFail (c : CoordConfig) (i : Nat) :
      c.tasks.get? i = some .initializing →
      CoordStep c i true
        ⟨⟨c.g.globalTools, false, c.g.nextId⟩, c.tasks.set i .failed⟩

/-- A step in an execution where every started construction succeeds. -/
def StepOk (c c' : CoordConfig) : Prop := ∃ i, CoordStep c i false c'

/-- A step in an arbitrary execution (constructions may fail). -/
def StepAny (c c' : CoordConfig) : Prop := ∃ i b, CoordStep c i b c'

/-- Reachability with all constructions succeeding. -/
def ReachOk : CoordConfig → CoordConfig → Prop :=
  Relation.ReflTransGen StepOk

/-- Reachability with constructions allowed to fail. -/
def ReachAny : CoordConfig → CoordConfig → Prop :=
  Relation.ReflTransGen StepAny

/-- The coordinator invariant, maintained by every step. -/
structure CoordInv (c : CoordConfig) : Prop where
  nextId_le : c.g.nextId ≤ 1
  slot_iff : c.g.globalTools = none ↔ c.g.nextId = 0
  slot_zero : ∀ id, c.g.globalTools = some id → id = 0
  init_unique : ∀ i j, c.tasks.get? i = some .initializing →
    c.tasks.get? j = some .initializing → i = j
  flag_clear : c.g.isInitializing = false →
    ∀ i, c.tasks.get? i ≠ some .initializing
  flag_slot : c.g.isInitializing = true → c.g.globalTools = some 0
  done_zero : ∀ i r, c.tasks.get? i = some (.done r) →
    r = some 0 ∧ c.g.globalTools = some 0
  flag_task : c.g.isInitializing = true →
    ∃ i, c.tasks.get? i = some .initializing

/-- No task has failed. -/
def NoFailed (c : CoordConfig) : Prop :=
  ∀ i, c.tasks.get? i ≠ some .failed

/-- Weight of a task's remaining work, used as a termination measure. -/
def pcWeight : TaskPC → Nat
  | .start => 3
  | .polling => 2
  | .initializing => 1
  | .done _ => 0
  | .failed => 0

/-- Total remaining work of a configuration. -/
def taskMeasure (c : CoordConfig) : Nat := (c.tasks.map pcWeight).sum

/-- Intermediate configuration of the C3 scenario: caller 0 has set the
flag, assigned the shared slot and is awaiting `initialize()`; caller 1 has
already returned the still-initializing instance through the fast path. -/
def coordCfgB : CoordConfig :=
  ⟨⟨some 0, true, 1⟩, [.initializing, .done (some 0)]⟩

/-- Configuration after caller 0's `initialize()` fails: flag cleared,
slot still holding instance 0, caller 0 failed, caller 1 done. -/
def coordCfgC : CoordConfig :=
  ⟨⟨some 0, false, 1⟩, [.failed, .done (some 0)]⟩

/-- Reading `get?` after `set`, in closed form. -/
lemma listGet_set {α : Type} (l : List α) (i j : Nat) (x : α) :
    (l.set i x).get? j =
      if i = j then (if i < l.length then some x else none) else l.get? j := by
  simp [List.get?_eq_getElem?, List.getElem?_set]

/-- An index read after a `set` either hit the written cell or reads the old
list. -/
lemma listGet_set_cases {α : Type} {l : List α} {i j : Nat} {x y : α}
    (h : (l.set i x).get? j = some y) : (j = i ∧ y = x) ∨ l.get? j = some y := by
  rw [listGet_set] at h
  by_cases hij : i = j
  · subst hij
    by_cases hlen : i < l.length
    · simp [hlen] at h; exact Or.inl ⟨rfl, h.symm⟩
    · simp [hlen] at h
  · rw [if_neg hij] at h; exact Or.inr h

/-- A successful read bounds the index. -/
lemma listGet_lt {α : Type} {l : List α} {i : Nat} {x : α}
    (h : l.get? i = some x) : i < l.length := by
  rcases List.get?_eq_some.mp h with ⟨hl, _⟩
  exact hl

/-- Reading back the written cell. -/
lemma listGet_set_self {α : Type} {l : List α} {i : Nat} (x : α) {old : α}
    (h : l.get? i = some old) : (l.set i x).get? i = some x := by
  rw [listGet_set]
  simp [listGet_lt h]

/-- A read of a value different from the written one comes from the old
list. -/
lemma listGet_set_preserve {α : Type} {l : List α} {i j : Nat} {x y : α}
    (hxy : x ≠ y) (h : (l.set i x).get? j = some y) : l.get? j = some y := by
  rcases listGet_set_cases h with ⟨_, rfl⟩ | hold
  · exact absurd rfl hxy
  · exact hold

/-- Every coordinator step preserves the number of tasks. -/
lemma coordStep_length {c : CoordConfig} {i : Nat} {b : Bool} {c' : CoordConfig}
    (st : CoordStep c i b c') : c'.tasks.length = c.tasks.length := by
  cases st <;> simp [List.length_set]

/-- The construction counter never decreases. -/
lemma coordStep_nextId_mono {c : CoordConfig} {i : Nat} {b : Bool}
    {c' : CoordConfig} (st : CoordStep c i b c') : c.g.nextId ≤ c'.g.nextId := by
  cases st <;> simp

/-- Once the shared slot holds an instance it keeps holding it. -/
lemma coordStep_slot_mono {c : CoordConfig} {i : Nat} {b : Bool}
    {c' : CoordConfig} {id : Nat} (st : CoordStep c i b c')
    (h : c.g.globalTools = some id) : c'.g.globalTools = some id := by
  cases st <;> simp_all

/-- The coordinator invariant is preserved by every step, failures
included. -/
lemma coordStep_inv {c : CoordConfig} {i : Nat} {b : Bool} {c' : CoordConfig}
    (inv : CoordInv c) (st : CoordStep c i b c') : CoordInv c' := by
  obtain ⟨h1, h2, h3, h4, h5, h6, h7, h9⟩ := inv
  cases st with
  | startFast id hi hslot =>
    have hid0 : id = 0 := h3 id hslot
    refine ⟨h1, h2, h3, ?_, ?_, h6, ?_, ?_⟩
    · intro a b' ha hb
      exact h4 a b' (listGet_set_preserve (by simp) ha)
        (listGet_set_preserve (by simp) hb)
    · intro hflag a ha
      exact h5 hflag a (listGet_set_preserve (by simp) ha)
    · intro j r hj
      rcases listGet_set_cases hj with ⟨rfl, hv⟩ | hold
      · cases hv; exact ⟨by rw [hid0], by rw [hslot, hid0]⟩
      · exact h7 j r hold
    · intro hflag
      rcases h9 hflag with ⟨j, hj⟩
      have hji : j ≠ i := by
        intro hji; subst hji; rw [hi] at hj; cases hj
      refine ⟨j, ?_⟩
      rw [listGet_set, if_neg (fun hh => hji hh.symm)]
      exact hj
  | startPoll hi hslot hflag =>
    refine ⟨h1, h2, h3, ?_, ?_, h6, ?_, ?_⟩
    · intro a b' ha hb
      exact h4 a b' (listGet_set_preserve (by simp) ha)
        (listGet_set_preserve (by simp) hb)
    · intro hfl a ha
      exact h5 hfl a (listGet_set_preserve (by simp) ha)
    · intro j r hj
      rcases listGet_set_cases hj with ⟨rfl, hv⟩ | hold
      · cases hv
      · exact h7 j r hold
    · intro hfl
      rcases h9 hfl with ⟨j, hj⟩
      have hji : j ≠ i := by
        intro hji; subst hji; rw [hi] at hj; cases hj
      refine ⟨j, ?_⟩
      rw [listGet_set, if_neg (fun hh => hji hh.symm)]
      exact hj
  | startConstruct hi hslot hflag =>
    have hn0 : c.g.nextId = 0 := h2.mp hslot
    refine ⟨by simp [hn0], by simp, ?_, ?_, ?_, ?_, ?_, ?_⟩
    · intro id hid
      simp only [Option.some.injEq] at hid
      omega
    · intro a b' ha hb
      rcases listGet_set_cases ha with ⟨rfl, _⟩ | holda
      · rcases listGet_set_cases hb with ⟨rfl, _⟩ | holdb
        · rfl
        · exact absurd holdb (h5 hflag b')
      · exact absurd holda (h5 hflag a)
    · intro hfl
      cases hfl
    · intro _
      simp [hn0]
    · intro j r hj
      rcases listGet_set_cases hj with ⟨rfl, hv⟩ | hold
      · cases hv
      · have hcontra := (h7 j r hold).2
        rw [hslot] at hcontra
        cases hcontra
    · intro _
      exact ⟨i, listGet_set_self .initializing hi⟩
  | pollWait hi hflag =>
    refine ⟨h1, h2, h3, ?_, ?_, h6, ?_, ?_⟩
    · intro a b' ha hb
      exact h4 a b' (listGet_set_preserve (by simp) ha)
        (listGet_set_preserve (by simp) hb)
    · intro hfl a ha
      exact h5 hfl a (listGet_set_preserve (by simp) ha)
    · intro j r hj
      rcases listGet_set_cases hj with ⟨rfl, hv⟩ | hold
      · cases hv
      · exact h7 j r hold
    · intro hfl
      rcases h9 hfl with ⟨j, hj⟩
      have hji : j ≠ i := by
        intro hji; subst hji; rw [hi] at hj; cases hj
      refine ⟨j, ?_⟩
      rw [listGet_set, if_neg (fun hh => hji hh.symm)]
      exact hj
  | pollDone id hi hflag hslot =>
    have hid0 : id = 0 := h3 id hslot
    refine ⟨h1, h2, h3, ?_, ?_, h6, ?_, ?_⟩
    · intro a b' ha hb
      exact h4 a b' (listGet_set_preserve (by simp) ha)
        (listGet_set_preserve (by simp) hb)
    · intro hfl a ha
      exact h5 hfl a (listGet_set_preserve (by simp) ha)
    · intro j r hj
      rcases listGet_set_cases hj with ⟨rfl, hv⟩ | hold
      · cases hv; exact ⟨by rw [hid0], by rw [hslot, hid0]⟩
      · exact h7 j r hold
    · intro hfl
      rcases h9 hfl with ⟨j, hj⟩
      have hji : j ≠ i := by
        intro hji; subst hji; rw [hi] at hj; cases hj
      refine ⟨j, ?_⟩
      rw [listGet_set, if_neg (fun hh => hji hh.symm)]
      exact hj
  | pollConstruct hi hflag hslot =>
    have hn0 : c.g.nextId = 0 := h2.mp hslot
    refine ⟨by simp [hn0], by simp, ?_, ?_, ?_, ?_, ?_, ?_⟩
    · intro id hid
      simp only [Option.some.injEq] at hid
      omega
    · intro a b' ha hb
      rcases listGet_set_cases ha with ⟨rfl, _⟩ | holda
      · rcases listGet_set_cases hb with ⟨rfl, _⟩ | holdb
        · rfl
        · exact absurd holdb (h5 hflag b')
      · exact absurd holda (h5 hflag a)
    · intro hfl
      cases hfl
    · intro _
      simp [hn0]
    · intro j r hj
      rcases listGet_set_cases hj with ⟨rfl, hv⟩ | hold
      · cases hv
      · have hcontra := (h7 j r hold).2
        rw [hslot] at hcontra
        cases hcontra
    · intro _
      exact ⟨i, listGet_set_self .initializing hi⟩
  | initOk hi =>
    have hflag : c.g.isInitializing = true := by
      cases hfi : c.g.isInitializing
      · exact absurd hi (h5 hfi i)
      · rfl
    have hslot0 : c.g.globalTools = some 0 := h6 hflag
    have hnone : ∀ a,
        (c.tasks.set i (.done c.g.globalTools)).get? a ≠ some .initializing := by
      intro a ha
      rcases listGet_set_cases ha with ⟨rfl, hv⟩ | hold
      · cases hv
      · have hai : a = i := h4 a i hold hi
        subst hai
        rw [listGet_set_self (TaskPC.done c.g.globalTools) hi] at ha
        cases ha
    refine ⟨h1, h2, h3, ?_, ?_, ?_, ?_, ?_⟩
    · intro a b' ha _
      exact absurd ha (hnone a)
    · intro _ a
      exact hnone a
    · intro hfl
      cases hfl
    · intro j r hj
      rcases listGet_set_cases hj with ⟨rfl, hv⟩ | hold
      · cases hv; exact ⟨hslot0, hslot0⟩
      · exact h7 j r hold
    · intro hfl
      cases hfl
  | initFail hi =>
    have hflag : c.g.isInitializing = true := by
      cases hfi : c.g.isInitializing
      · exact absurd hi (h5 hfi i)
      · rfl
    have hnone : ∀ a,
        (c.tasks.set i .failed).get? a ≠ some .initializing := by
      intro a ha
      rcases listGet_set_cases ha with ⟨rfl, hv⟩ | hold
      · cases hv
      · have hai : a = i := h4 a i hold hi
        subst hai
        rw [listGet_set_self TaskPC.failed hi] at ha
        cases ha
    refine ⟨h1, h2, h3, ?_, ?_, ?_, ?_, ?_⟩
    · intro a b' ha _
      exact absurd ha (hnone a)
    · intro _ a
      exact hnone a
    · intro hfl
      cases hfl
    · intro j r hj
      rcases listGet_set_cases hj with ⟨rfl, hv⟩ | hold
      · cases hv
      · exact h7 j r hold
    · intro hfl
      cases hfl

/-- The initial configuration satisfies the invariant. -/
lemma initCoordConfig_inv (callers : Nat) : CoordInv (initCoordConfig callers) := by
  have hrep : ∀ i x, (List.replicate callers TaskPC.start).get? i = some x →
      x = .start := by
    intro i x h
    rw [List.get?_eq_getElem?, List.getElem?_replicate] at h
    by_cases hi : i < callers
    · rw [if_pos hi] at h; cases h; rfl
    · rw [if_neg hi] at h; cases h
  refine ⟨by simp [initCoordConfig], by simp [initCoordConfig], ?_, ?_, ?_, ?_, ?_, ?_⟩
  · intro id h; cases h
  · intro a b ha _
    have := hrep a _ ha; cases this
  · intro _ a ha
    have := hrep a _ ha; cases this
  · intro h; cases h
  · intro j r hj
    have := hrep j _ hj; cases this
  · intro h; cases h

/-- A success-only step is a step. -/
lemma stepOk_any {c c' : CoordConfig} (h : StepOk c c') : StepAny c c' := by
  obtain ⟨i, hst⟩ := h
  exact ⟨i, false, hst⟩

/-- Steps preserve the invariant along any execution. -/
lemma reachAny_inv {c c' : CoordConfig} (inv : CoordInv c) (h : ReachAny c c') :
    CoordInv c' := by
  induction h with
  | refl => exact inv
  | tail _ hstep ih =>
    obtain ⟨i, b, hst⟩ := hstep
    exact coordStep_inv ih hst

/-- Steps preserve the invariant along success-only executions. -/
lemma reachOk_inv {c c' : CoordConfig} (inv : CoordInv c) (h : ReachOk c c') :
    CoordInv c' := by
  induction h with
  | refl => exact inv
  | tail _ hstep ih =>
    obtain ⟨i, hst⟩ := hstep
    exact coordStep_inv ih hst

/-- The task count is constant along success-only executions. -/
lemma reachOk_length {c c' : CoordConfig} (h : ReachOk c c') :
    c'.tasks.length = c.tasks.length := by
  induction h with
  | refl => rfl
  | tail _ hstep ih =>
    obtain ⟨i, hst⟩ := hstep
    rw [coordStep_length hst, ih]

/-- The construction counter never decreases along any execution. -/
lemma reachAny_nextId_mono {c c' : CoordConfig} (h : ReachAny c c') :
    c.g.nextId ≤ c'.g.nextId := by
  induction h with
  | refl => exact Nat.le_refl _
  | tail _ hstep ih =>
    obtain ⟨i, b, hst⟩ := hstep
    exact Nat.le_trans ih (coordStep_nextId_mono hst)


/-- Success-only steps never produce a failed task. -/
lemma stepOk_noFailed {c c' : CoordConfig} (hnf : NoFailed c)
    (h : StepOk c c') : NoFailed c' := by
  obtain ⟨i, hst⟩ := h
  cases hst with
  | startFast id hi hslot =>
    intro a ha; exact hnf a (listGet_set_preserve (by simp) ha)
  | startPoll hi hslot hflag =>
    intro a ha; exact hnf a (listGet_set_preserve (by simp) ha)
  | startConstruct hi hslot hflag =>
    intro a ha; exact hnf a (listGet_set_preserve (by simp) ha)
  | pollWait hi hflag =>
    intro a ha; exact hnf a (listGet_set_preserve (by simp) ha)
  | pollDone id hi hflag hslot =>
    intro a ha; exact hnf a (listGet_set_preserve (by simp) ha)
  | pollConstruct hi hflag hslot =>
    intro a ha; exact hnf a (listGet_set_preserve (by simp) ha)
  | initOk hi =>
    intro a ha; exact hnf a (listGet_set_preserve (by simp) ha)



/-- Effect of writing one cell on the total weight. -/
lemma weightSum_set : ∀ (l : List TaskPC) (i : Nat) (old x : TaskPC),
    l.get? i = some old →
    ((l.set i x).map pcWeight).sum + pcWeight old =
      (l.map pcWeight).sum + pcWeight x := by
  intro l
  induction l with
  | nil => intro i old x h; cases h
  | cons a t ih =>
    intro i old x h
    cases i with
    | zero =>
      cases h
      simp [List.set]
      omega
    | succ n =>
      have hih := ih n old x h
      simp only [List.set, List.map_cons, List.sum_cons]
      omega

/-- From any invariant-satisfying, failure-free configuration a schedule
exists that drives every caller to completion with instance 0: pending
constructions settle, pollers then pick up the stored instance, and
stragglers take the fast path. -/
lemma coordProgress : ∀ (n : Nat) (c : CoordConfig), taskMeasure c = n →
    CoordInv c → NoFailed c →
    ∃ c', ReachOk c c' ∧ ∀ i pc, c'.tasks.get? i = some pc →
      pc = .done (some 0) := by
  intro n
  induction n using Nat.strong_induction_on with
  | _ n ih =>
    intro c hn inv hnf
    by_cases hdone : ∀ i pc, c.tasks.get? i = some pc → pc = .done (some 0)
    · exact ⟨c, Relation.ReflTransGen.refl, hdone⟩
    · push_neg at hdone
      obtain ⟨i, pc, hget, hne⟩ := hdone
      have finish : ∀ (c2 : CoordConfig) (j : Nat), CoordStep c j false c2 →
          taskMeasure c2 < n →
          ∃ c', ReachOk c c' ∧ ∀ a pc2, c'.tasks.get? a = some pc2 →
            pc2 = .done (some 0) := by
        intro c2 j hstep hlt
        obtain ⟨c'', hreach, hall⟩ := ih (taskMeasure c2) hlt c2 rfl
          (coordStep_inv inv hstep) (stepOk_noFailed hnf ⟨j, hstep⟩)
        exact ⟨c'', Relation.ReflTransGen.head ⟨j, hstep⟩ hreach, hall⟩
      have hdec : ∀ (jj : Nat) (old x : TaskPC) (g' : GState),
          c.tasks.get? jj = some old → pcWeight x < pcWeight old →
          taskMeasure ⟨g', c.tasks.set jj x⟩ < n := by
        intro jj old x g' hold hw
        have hmeq := weightSum_set c.tasks jj old x hold
        have hshape : taskMeasure ⟨g', c.tasks.set jj x⟩ =
            ((c.tasks.set jj x).map pcWeight).sum := rfl
        have hn' : (c.tasks.map pcWeight).sum = n := hn
        rw [hshape]
        omega
      cases pc with
      | start =>
        cases hslot : c.g.globalTools with
        | some id =>
          exact finish _ i (CoordStep.startFast c i id hget hslot)
            (hdec i _ _ _ hget (by simp [pcWeight]))
        | none =>
          cases hflag : c.g.isInitializing with
          | true =>
            exact finish _ i (CoordStep.startPoll c i hget hslot hflag)
              (hdec i _ _ _ hget (by simp [pcWeight]))
          | false =>
            exact finish _ i (CoordStep.startConstruct c i hget hslot hflag)
              (hdec i _ _ _ hget (by simp [pcWeight]))
      | polling =>
        cases hflag : c.g.isInitializing with
        | true =>
          obtain ⟨j, hj⟩ := inv.flag_task hflag
          exact finish _ j (CoordStep.initOk c j hj)
            (hdec j _ _ _ hj (by simp [pcWeight]))
        | false =>
          cases hslot : c.g.globalTools with
          | some id =>
            exact finish _ i (CoordStep.pollDone c i id hget hflag hslot)
              (hdec i _ _ _ hget (by simp [pcWeight]))
          | none =>
            exact finish _ i (CoordStep.pollConstruct c i hget hflag hslot)
              (hdec i _ _ _ hget (by simp [pcWeight]))
      | initializing =>
        exact finish _ i (CoordStep.initOk c i hget)
          (hdec i _ _ _ hget (by simp [pcWeight]))
      | done r =>
        exact absurd (by rw [(inv.done_zero i r hget).1]) hne
      | failed =>
        exact absurd hget (hnf i)

/-- A pointwise-stronger filter keeps at most as many elements. -/
lemma filter_length_mono {α : Type} (p q : α → Bool) :
    ∀ l : List α, (∀ a ∈ l, p a = true → q a = true) →
    (l.filter p).length ≤ (l.filter q).length := by
  intro l
  induction l with
  | nil => intro _; exact Nat.le_refl _
  | cons a t ih =>
    intro h
    have ht := ih (fun x hx => h x (List.mem_cons_of_mem a hx))
    by_cases hpa : p a = true
    · rw [List.filter_cons_of_pos hpa,
        List.filter_cons_of_pos (h a (List.mem_cons_self a t) hpa)]
      simpa using ht
    · rw [List.filter_cons_of_neg (by simpa using hpa)]
      by_cases hqa : q a = true
      · rw [List.filter_cons_of_pos hqa]
        exact Nat.le_trans ht (Nat.le_succ _)
      · rw [List.filter_cons_of_neg (by simpa using hqa)]
        exact ht

/-- The recorded timestamp lies at least MIN_INTERVAL after the previous
one: the interval wait tops the elapsed time up to the minimum. -/
lemma rl_step_min (s : RLState) (now slack : Nat)
    (hle : s.lastRequestTime ≤ now) :
    s.lastRequestTime + MIN_INTERVAL ≤ (checkRateLimit s now slack).recordTime := by
  have hrt : (checkRateLimit s now slack).recordTime =
      now + hourlyWaitOf s now + intervalWaitOf s now + slack := rfl
  rw [hrt]
  unfold intervalWaitOf
  by_cases h : now - s.lastRequestTime < MIN_INTERVAL
  · rw [if_pos h]
    omega
  · rw [if_neg h]
    omega

/-- Elements of the pruned list are old timestamps inside the window. -/
lemma prunedOf_mem {s : RLState} {now t : Nat} (h : t ∈ prunedOf s now) :
    t ∈ s.requestTimestamps ∧ now - t < HOUR_MS := by
  rcases List.mem_filter.mp h with ⟨hm, hp⟩
  exact ⟨hm, by simpa using hp⟩

/-- One admission check preserves the rate-limiter invariant. -/
lemma rl_step_inv (s : RLState) (now slack : Nat) (hinv : RLInv s)
    (hle : s.lastRequestTime ≤ now) :
    RLInv (checkRateLimit s now slack).state := by
  obtain ⟨hmem, hcount⟩ := hinv
  have hpmem : ∀ t ∈ prunedOf s now, t ≤ now := by
    intro t ht
    exact Nat.le_trans (hmem t (prunedOf_mem ht).1) hle
  have hplen : (prunedOf s now).length ≤ MAX_REQUESTS_PER_HOUR := by
    refine Nat.le_trans (filter_length_mono _ _ s.requestTimestamps ?_) hcount
    intro a _ hpa
    simp only [decide_eq_true_eq] at hpa ⊢
    omega
  have hrt : (checkRateLimit s now slack).recordTime =
      now + hourlyWaitOf s now + intervalWaitOf s now + slack := rfl
  have hnow_le : now ≤ (checkRateLimit s now slack).recordTime := by
    rw [hrt]; omega
  have hstate_ts : (checkRateLimit s now slack).state.requestTimestamps =
      prunedOf s now ++ [(checkRateLimit s now slack).recordTime] := rfl
  have hstate_last : (checkRateLimit s now slack).state.lastRequestTime =
      (checkRateLimit s now slack).recordTime := rfl
  constructor
  · intro t ht
    rw [hstate_ts] at ht
    rw [hstate_last]
    rcases List.mem_append.mp ht with hl | hr
    · exact Nat.le_trans (Nat.le_trans (hpmem t hl) hnow_le) (Nat.le_refl _)
    · rw [List.mem_singleton.mp hr]
  · unfold inWindowCount
    rw [hstate_ts, hstate_last, List.filter_append]
    have hself : List.filter
        (fun t => decide ((checkRateLimit s now slack).recordTime - t < HOUR_MS))
        [(checkRateLimit s now slack).recordTime] =
        [(checkRateLimit s now slack).recordTime] := by
      simp [HOUR_MS]
    rw [hself, List.length_append, List.length_singleton]
    by_cases hq : MAX_REQUESTS_PER_HOUR ≤ (prunedOf s now).length
    · -- quota reached: the wait pushes the head of the pruned list out of
      -- the window, so at most 19 pruned entries survive the new filter
      have hw1 : hourlyWaitOf s now =
          HOUR_MS - (now - (prunedOf s now).headD 0) + 1000 := by
        unfold hourlyWaitOf; rw [if_pos hq]
      have hne : prunedOf s now ≠ [] := by
        intro h
        rw [h] at hq
        simp [MAX_REQUESTS_PER_HOUR] at hq
      obtain ⟨h0, tl, heq⟩ := List.exists_cons_of_ne_nil hne
      have hh0 : (prunedOf s now).headD 0 = h0 := by rw [heq]; rfl
      have hh0mem : h0 ∈ prunedOf s now := by rw [heq]; exact List.mem_cons_self _ _
      have hh0now : h0 ≤ now := hpmem h0 hh0mem
      have hh0win : now - h0 < HOUR_MS := (prunedOf_mem hh0mem).2
      have hout : ¬ ((checkRateLimit s now slack).recordTime - h0 < HOUR_MS) := by
        rw [hrt, hw1, hh0]
        omega
      have hfilter : List.filter
          (fun t => decide ((checkRateLimit s now slack).recordTime - t < HOUR_MS))
          (prunedOf s now) =
          List.filter
            (fun t => decide ((checkRateLimit s now slack).recordTime - t < HOUR_MS))
            tl := by
        rw [heq, List.filter_cons_of_neg (by simpa using hout)]
      rw [hfilter]
      have hlen_tl : tl.length + 1 = (prunedOf s now).length := by
        rw [heq]; rfl
      have := List.length_filter_le
        (fun t => decide ((checkRateLimit s now slack).recordTime - t < HOUR_MS)) tl
      simp only [MAX_REQUESTS_PER_HOUR] at hplen hq ⊢
      omega
    · have hlt : (prunedOf s now).length < MAX_REQUESTS_PER_HOUR :=
        Nat.lt_of_not_le hq
      have := List.length_filter_le
        (fun t => decide ((checkRateLimit s now slack).recordTime - t < HOUR_MS))
        (prunedOf s now)
      simp only [MAX_REQUESTS_PER_HOUR] at hlt ⊢
      omega

/-- The invariant holds after any sequence of sequential admission checks. -/
lemma runChecks_inv : ∀ (inputs : List (Nat × Nat)) (s : RLState), RLInv s →
    RLInv (runChecks s inputs).1 := by
  intro inputs
  induction inputs with
  | nil => intro s h; exact h
  | cons a rest ih =>
    intro s h
    obtain ⟨gap, slack⟩ := a
    have h1 := rl_step_inv s (s.lastRequestTime + gap) slack h (Nat.le_add_right _ _)
    have hshape : (runChecks s ((gap, slack) :: rest)).1 =
        (runChecks (checkRateLimit s (s.lastRequestTime + gap) slack).state rest).1 := by
      simp [runChecks]
    rw [hshape]
    exact ih _ h1

/-- The granted timestamps extend the previous one by at least
MIN_INTERVAL, link by link. -/
lemma runChecks_chain : ∀ (inputs : List (Nat × Nat)) (s : RLState),
    List.Chain (fun a b => a + MIN_INTERVAL ≤ b) s.lastRequestTime
      (runChecks s inputs).2 := by
  intro inputs
  induction inputs with
  | nil => intro s; exact List.Chain.nil
  | cons a rest ih =>
    intro s
    obtain ⟨gap, slack⟩ := a
    have hshape : (runChecks s ((gap, slack) :: rest)).2 =
        (checkRateLimit s (s.lastRequestTime + gap) slack).recordTime ::
          (runChecks (checkRateLimit s (s.lastRequestTime + gap) slack).state rest).2 := by
      simp [runChecks]
    rw [hshape]
    refine List.Chain.cons
      (rl_step_min s (s.lastRequestTime + gap) slack (Nat.le_add_right _ _)) ?_
    have htail := ih (checkRateLimit s (s.lastRequestTime + gap) slack).state
    have hlast : (checkRateLimit s (s.lastRequestTime + gap) slack).state.lastRequestTime =
        (checkRateLimit s (s.lastRequestTime + gap) slack).recordTime := rfl
    rw [hlast] at htail
    exact htail

/-- A `Map.set` followed by `Map.get` on the same key finds the new entry. -/
lemma cacheFind_set_self {α : Type} :
    ∀ (c : CacheMap α) (key : String) (d : α) (now : Nat),
    cacheFind (setCachedContent c key d now) key = some ⟨d, now⟩ := by
  intro c key d now
  induction c with
  | nil => simp [setCachedContent, cacheFind]
  | cons kv rest ih =>
    obtain ⟨k, e⟩ := kv
    by_cases hk : k = key
    · simp [setCachedContent, cacheFind, hk]
    · simp [setCachedContent, cacheFind, hk]
      exact ih

/-- Reading a fresh entry: visible exactly while the TTL has not elapsed,
as a function of the write time alone. -/
lemma getCached_set_self {α : Type} (c : CacheMap α) (key : String) (d : α)
    (tWrite now : Nat) :
    getCachedContent (setCachedContent c key d tWrite) key now =
      if now - tWrite < CACHE_TTL then some d else none := by
  unfold getCachedContent
  rw [cacheFind_set_self]

/-- If every attempt from `attempt` through `attempt + r` fails and the last
of them fails with `e`, the retry loop returns exactly `e`. -/
lemma retryGo_all_fail {α : Type} :
    ∀ (r attempt : Nat) (op : Nat → Except String α) (name : String) (e : String),
    (∀ i, attempt ≤ i → i ≤ attempt + r → (op i).isOk = false) →
    op (attempt + r) = .error e →
    (retryGo op name attempt (r + 1)).1 = .error e := by
  intro r
  induction r with
  | zero =>
    intro attempt op name e _ hlast
    simp only [Nat.add_zero] at hlast
    simp [retryGo, hlast]
  | succ r ih =>
    intro attempt op name e hall hlast
    have hfirst : (op attempt).isOk = false :=
      hall attempt (Nat.le_refl _) (Nat.le_add_right _ _)
    have hfe : ∃ e1, op attempt = .error e1 := by
      cases hop : op attempt with
      | ok a => rw [hop] at hfirst; cases hfirst
      | error e1 => exact ⟨e1, rfl⟩
    obtain ⟨e1, he1⟩ := hfe
    have hrec := ih (attempt + 1) op name e
      (fun i h1 h2 => hall i (Nat.le_of_succ_le h1) (by omega))
      (by rw [show attempt + 1 + r = attempt + (r + 1) by omega]; exact hlast)
    simp only [retryGo, he1]
    simp only [Nat.succ_ne_zero, if_false]
    rw [← hrec]
    rfl

/-- The trace of a content operation, by cases on the cache lookup. -/
lemma contentOperation_trace {δ : Type} (st : ToolsState δ)
    (cacheKey opName : String) (fetch : Nat → Except String δ) (tm : OpTimes) :
    (contentOperation st cacheKey opName fetch tm).2.2 =
      match getCachedContent st.cache cacheKey tm.tCache with
      | some _ => [.cacheCheck cacheKey]
      | none => .cacheCheck cacheKey :: .rateLimitCheck ::
          ((retryWithBackoff fetch opName 3).2).map OpEvent.fetchAttempt := by
  cases h : getCachedContent st.cache cacheKey tm.tCache with
  | some d => simp [contentOperation, h]
  | none => simp [contentOperation, h]

/-- If some listed image is missing, not a regular file, or has a
disallowed extension, the validation loop rejects the list. -/
lemma validateLoop_err_of_bad :
    ∀ (paths : List String) (fsys : FileSys) (p : String), p ∈ paths →
    (fsys.pathExists (fsys.resolve p) = false ∨
     fsys.isFile (fsys.resolve p) = false ∨
     allowedExtensions.contains (extOf p) = false) →
    ∃ e, validateLoop fsys paths = .error e := by
  intro paths
  induction paths with
  | nil => intro fsys p hp; cases hp
  | cons q rest ih =>
    intro fsys p hp hbad
    by_cases h1 : fsys.pathExists (fsys.resolve q) = false
    · refine ⟨"Image file not found: " ++ q, ?_⟩
      simp only [validateLoop]
      rw [if_pos h1]
    · by_cases h2 : fsys.isFile (fsys.resolve q) = false
      · refine ⟨"Path is not a file: " ++ q, ?_⟩
        simp only [validateLoop]
        rw [if_neg h1, if_pos h2]
      · by_cases h3 : extOf q = "" ∨ allowedExtensions.contains (extOf q) = false
        · refine ⟨"Unsupported image format: " ++ q ++
            ". Supported: jpg, jpeg, png, gif, webp", ?_⟩
          simp only [validateLoop]
          rw [if_neg h1, if_neg h2, if_pos h3]
        · have hq : p ≠ q := by
            intro hpq
            subst hpq
            push_neg at h3
            rcases hbad with hb | hb | hb
            · exact absurd hb h1
            · exact absurd hb h2
            · exact absurd hb h3.2
          have hprest : p ∈ rest := by
            rcases List.mem_cons.mp hp with hh | hh
            · exact absurd hh hq
            · exact hh
          obtain ⟨e, he⟩ := ih fsys p hprest hbad
          refine ⟨e, ?_⟩
          simp only [validateLoop]
          rw [if_neg h1, if_neg h2, if_neg h3, he]

/-- The validation loop keeps one resolved path per input path. -/
lemma validateLoop_ok_length :
    ∀ (paths : List String) (fsys : FileSys) (v : List String),
    validateLoop fsys paths = .ok v → v.length = paths.length := by
  intro paths
  induction paths with
  | nil =>
    intro fsys v h
    simp only [validateLoop] at h
    cases h
    rfl
  | cons q rest ih =>
    intro fsys v h
    simp only [validateLoop] at h
    by_cases h1 : fsys.pathExists (fsys.resolve q) = false
    · rw [if_pos h1] at h; cases h
    · rw [if_neg h1] at h
      by_cases h2 : fsys.isFile (fsys.resolve q) = false
      · rw [if_pos h2] at h; cases h
      · rw [if_neg h2] at h
        by_cases h3 : extOf q = "" ∨ allowedExtensions.contains (extOf q) = false
        · rw [if_pos h3] at h; cases h
        · rw [if_neg h3] at h
          cases hrest : validateLoop fsys rest with
          | ok v0 =>
            rw [hrest] at h
            cases h
            simp [ih fsys v0 hrest]
          | error e =>
            rw [hrest] at h
            cases h

/-- A winning strategy-2 selector always yields a non-empty candidate
list. -/
lemma strategy2_pos {p : CommentPage} {l : List Elem}
    (h : strategy2 p = some l) : 0 < l.length := by
  unfold strategy2 at h
  generalize hsel : strategy2Selectors = sels at h
  clear hsel
  induction sels with
  | nil => cases h
  | cons s rest ih =>
    simp only [strategy2.go] at h
    by_cases hlen : 0 < (p.selectorQuery s).length
    · rw [if_pos hlen] at h
      cases h
      exact hlen
    · rw [if_neg hlen] at h
      exact ih h

/-- Dropping the head of a chain. -/
lemma chainToChain' {α : Type} {R : α → α → Prop} {a : α} {l : List α}
    (h : List.Chain R a l) : List.Chain' R l := by
  cases l with
  | nil => trivial
  | cons b t => cases h with | cons hab ht => exact ht

/-- No task fails along a success-only execution from the start
configuration. -/
lemma reachOk_noFailed {callers : Nat} {c : CoordConfig}
    (h : ReachOk (initCoordConfig callers) c) : NoFailed c := by
  induction h with
  | refl =>
    intro i hi
    rw [initCoordConfig] at hi
    simp only [List.get?_eq_getElem?, List.getElem?_replicate] at hi
    by_cases hlt : i < callers
    · rw [if_pos hlt] at hi; cases hi
    · rw [if_neg hlt] at hi; cases hi
  | tail _ hstep ih => exact stepOk_noFailed ih hstep



/-- C1: the claim that every public content operation performs the
admission check (checkRateLimit) before the cache lookup is false on the
code: on a concrete `searchNotes` call with an empty cache the emitted
trace is cache-check, then rate-limit check, then the fetch attempt, and no
rate-limit event precedes the cache check. -/
theorem rednote_c1_counterexample :
    (searchNotes (⟨[], rlInit⟩ : ToolsState Nat) "a" 10
        (fun _ => .ok 0) ⟨0, 0, 0, 0⟩).2.2 =
      [.cacheCheck "search:a:10", .rateLimitCheck, .fetchAttempt 1] ∧
    ¬ precedes isRateLimitEvent isCacheCheckEvent
        ((searchNotes (⟨[], rlInit⟩ : ToolsState Nat) "a" 10
          (fun _ => .ok 0) ⟨0, 0, 0, 0⟩).2.2) ∧
    precedes isCacheCheckEvent isRateLimitEvent
        ((searchNotes (⟨[], rlInit⟩ : ToolsState Nat) "a" 10
          (fun _ => .ok 0) ⟨0, 0, 0, 0⟩).2.2) := by
  refine ⟨by decide, by decide, by decide⟩

/-- C1 (amended): in every call to searchNotes, getNoteContent or
getNoteComments the cache lookup comes first; on a hit the operation
returns at once with no admission check and no fetch; on a miss the
admission check (checkRateLimit) runs next and the retry-wrapped fetch runs
only after it. -/
theorem rednote_c1_amended {δ : Type} (st1 st2 st3 : ToolsState δ)
    (keywords : String) (limit : Nat) (noteUrl commentsUrl : String)
    (f1 f2 f3 : Nat → Except String δ) (tm1 tm2 tm3 : OpTimes) :
    (searchNotes st1 keywords limit f1 tm1).2.2 =
      (match getCachedContent st1.cache (searchCacheKey keywords limit) tm1.tCache with
       | some _ => [OpEvent.cacheCheck (searchCacheKey keywords limit)]
       | none => .cacheCheck (searchCacheKey keywords limit) :: .rateLimitCheck ::
           ((retryWithBackoff f1 "searchNotes" 3).2).map OpEvent.fetchAttempt) ∧
    (getNoteContent st2 noteUrl f2 tm2).2.2 =
      (match getCachedContent st2.cache (noteCacheKey noteUrl) tm2.tCache with
       | some _ => [OpEvent.cacheCheck (noteCacheKey noteUrl)]
       | none => .cacheCheck (noteCacheKey noteUrl) :: .rateLimitCheck ::
           ((retryWithBackoff f2 "getNoteContent" 3).2).map OpEvent.fetchAttempt) ∧
    (getNoteComments st3 commentsUrl f3 tm3).2.2 =
      (match getCachedContent st3.cache (commentsCacheKey commentsUrl) tm3.tCache with
       | some _ => [OpEvent.cacheCheck (commentsCacheKey commentsUrl)]
       | none => .cacheCheck (commentsCacheKey commentsUrl) :: .rateLimitCheck ::
           ((retryWithBackoff f3 "getNoteComments" 3).2).map OpEvent.fetchAttempt) :=
  ⟨contentOperation_trace st1 _ _ f1 tm1,
   contentOperation_trace st2 _ _ f2 tm2,
   contentOperation_trace st3 _ _ f3 tm3⟩

/-- C2: the claim that exhausted retries surface a typed RetriesExhausted
wrapper is false on the code: `retryWithBackoff` rethrows the raw last
error itself, so a caller whose three attempts all fail with "ECONNRESET"
receives exactly that raw low-level error. -/
theorem rednote_c2_counterexample :
    retryWithBackoff (fun _ => (Except.error "ECONNRESET" : Except String Nat))
      "getNoteContent" 3 = (Except.error "ECONNRESET", [1, 2, 3]) := rfl

/-- C2 (amended): if all maxAttempts (default 3) attempts fail, the call
fails with the last underlying error itself, rethrown as-is; no
RetriesExhausted wrapper exists in the code. -/
theorem rednote_c2_amended {α : Type} (op : Nat → Except String α)
    (operationName : String) (n : Nat) (e : String) (hn : 1 ≤ n)
    (hfail : ∀ i, 1 ≤ i → i ≤ n → (op i).isOk = false)
    (hlast : op n = .error e) :
    (retryWithBackoff op operationName n).1 = Except.error e := by
  obtain ⟨m, rfl⟩ : ∃ m, n = m + 1 := ⟨n - 1, by omega⟩
  unfold retryWithBackoff
  refine retryGo_all_fail m 1 op operationName e ?_ ?_
  · intro i h1 h2
    exact hfail i h1 (by omega)
  · rw [show 1 + m = m + 1 by omega]
    exact hlast

/-- Witness for C2 (amended) at two always-failing attempts. -/
theorem rednote_c2_amended_witness :
    (retryWithBackoff (fun _ => (Except.error "timeout" : Except String Nat))
      "searchNotes" 2).1 = Except.error "timeout" :=
  rednote_c2_amended (fun _ => (Except.error "timeout" : Except String Nat))
    "searchNotes" 2 "timeout" (by decide) (fun _ _ _ => rfl) rfl

/-- C7: a `set(k, v)` at time t followed immediately by `get(k)` returns v;
a `get(k)` at any later time returns v exactly while `now - t < TTL` and
absent afterwards, as a function of the write time alone (reads never
mutate the store, so a hit cannot extend the expiry); and a `set` always
overwrites the stored entry for the key with the new data and timestamp. -/
theorem rednote_c7 {α : Type} (c : CacheMap α) (key : String) (d d2 : α)
    (tWrite t2 now : Nat) :
    getCachedContent (setCachedContent c key d tWrite) key tWrite = some d ∧
    getCachedContent (setCachedContent c key d tWrite) key now =
      (if now - tWrite < CACHE_TTL then some d else none) ∧
    cacheFind (setCachedContent (setCachedContent c key d tWrite) key d2 t2) key =
      some ⟨d2, t2⟩ := by
  refine ⟨?_, getCached_set_self c key d tWrite now, cacheFind_set_self _ key d2 t2⟩
  rw [getCached_set_self]
  simp [CACHE_TTL]

/-- C5: after any sequence of admission checks, at most
MAX_REQUESTS_PER_HOUR (20) stored timestamps lie within the rolling hour of
the newest recorded timestamp; and whenever the pruned count reaches 20 the
caller is suspended until the oldest retained timestamp has left the hour
window plus the fixed 1000 ms margin before its own timestamp is
recorded. -/
theorem rednote_c5 (inputs : List (Nat × Nat)) (s : RLState) (now slack : Nat) :
    inWindowCount (runChecks rlInit inputs).1 ≤ MAX_REQUESTS_PER_HOUR ∧
    (RLInv s → s.lastRequestTime ≤ now →
      MAX_REQUESTS_PER_HOUR ≤ (prunedOf s now).length →
      (prunedOf s now).headD 0 + HOUR_MS + 1000 ≤
        (checkRateLimit s now slack).recordTime) := by
  constructor
  · refine (runChecks_inv inputs rlInit ?_).2
    constructor
    · intro t ht; cases ht
    · simp [inWindowCount, rlInit]
  · intro hinv hle hq
    have hne : prunedOf s now ≠ [] := by
      intro h
      rw [h] at hq
      simp [MAX_REQUESTS_PER_HOUR] at hq
    obtain ⟨h0, tl, heq⟩ := List.exists_cons_of_ne_nil hne
    have hh0 : (prunedOf s now).headD 0 = h0 := by rw [heq]; rfl
    have hh0mem : h0 ∈ prunedOf s now := by
      rw [heq]; exact List.mem_cons_self _ _
    have hh0now : h0 ≤ now := Nat.le_trans (hinv.1 h0 (prunedOf_mem hh0mem).1) hle
    have hh0win : now - h0 < HOUR_MS := (prunedOf_mem hh0mem).2
    have hw1 : hourlyWaitOf s now =
        HOUR_MS - (now - (prunedOf s now).headD 0) + 1000 := by
      unfold hourlyWaitOf; rw [if_pos hq]
    have hrt : (checkRateLimit s now slack).recordTime =
        now + hourlyWaitOf s now + intervalWaitOf s now + slack := rfl
    rw [hrt, hw1, hh0]
    omega

/-- Witness for C5 at a state holding twenty in-window timestamps. -/
theorem rednote_c5_witness :
    inWindowCount (runChecks rlInit []).1 ≤ MAX_REQUESTS_PER_HOUR ∧
    (prunedOf ⟨0, List.replicate 20 0, 20⟩ 0).headD 0 + HOUR_MS + 1000 ≤
      (checkRateLimit ⟨0, List.replicate 20 0, 20⟩ 0 0).recordTime :=
  ⟨(rednote_c5 [] ⟨0, List.replicate 20 0, 20⟩ 0 0).1,
   (rednote_c5 [] ⟨0, List.replicate 20 0, 20⟩ 0 0).2
     ⟨by decide, by decide⟩ (by decide) (by decide)⟩

/-- C6: in any sequence of sequential admission checks the recorded
timestamps of consecutively granted requests are at least MIN_INTERVAL_MS
(10000 ms) apart; and a caller arriving with less than the minimum interval
elapsed is suspended for exactly the remaining interval before its
timestamp is recorded. -/
theorem rednote_c6 (inputs : List (Nat × Nat)) (s : RLState) (now slack : Nat) :
    List.Chain' (fun a b => a + MIN_INTERVAL ≤ b) (runChecks rlInit inputs).2 ∧
    (now - s.lastRequestTime < MIN_INTERVAL →
      (checkRateLimit s now slack).intervalWait =
        MIN_INTERVAL - (now - s.lastRequestTime)) := by
  constructor
  · exact chainToChain' (runChecks_chain inputs rlInit)
  · intro hlt
    have : (checkRateLimit s now slack).intervalWait = intervalWaitOf s now := rfl
    rw [this]
    unfold intervalWaitOf
    rw [if_pos hlt]

/-- Witness for C6 on a two-request burst and an early arrival. -/
theorem rednote_c6_witness :
    List.Chain' (fun a b => a + MIN_INTERVAL ≤ b) (runChecks rlInit [(0, 0), (0, 0)]).2 ∧
    (checkRateLimit ⟨100000, [100000], 1⟩ 103000 0).intervalWait =
      MIN_INTERVAL - (103000 - 100000) :=
  ⟨(rednote_c6 [(0, 0), (0, 0)] rlInit 0 0).1,
   (rednote_c6 [] ⟨100000, [100000], 1⟩ 103000 0).2 (by decide)⟩

/-- C8: the comment-extraction strategy loop is strict first-match: when
strategy 1 yields nothing and strategy 2 yields candidates, the selection
is exactly strategy 2's candidate list tagged with strategy number 2, no
matter what any third strategy would return — strategy 3 is never
evaluated — and the pipeline's own selection equals that result. -/
theorem rednote_c8 (p : CommentPage) (l : List Elem)
    (h1 : strategy1 p = none) (h2 : strategy2 p = some l) :
    (∀ s3 : CommentPage → Option (List Elem),
      tryStrategies [strategy1, strategy2, s3] p 1 = some (2, l)) ∧
    selectCommentItems p = some (2, l) := by
  have hl : 0 < l.length := strategy2_pos h2
  have hgen : ∀ s3 : CommentPage → Option (List Elem),
      tryStrategies [strategy1, strategy2, s3] p 1 = some (2, l) := by
    intro s3
    simp [tryStrategies, h1, h2, hl]
  exact ⟨hgen, hgen strategy3⟩

/-- Witness for C8 on a page matched only by strategy 2's second
selector. -/
theorem rednote_c8_witness :
    selectCommentItems
      ⟨[], fun sel => if sel = ".comment-list .comment-item" then
          [⟨"nice post", "comment-item", ""⟩] else [], []⟩ =
      some (2, [⟨"nice post", "comment-item", ""⟩]) :=
  (rednote_c8
    ⟨[], fun sel => if sel = ".comment-list .comment-item" then
        [⟨"nice post", "comment-item", ""⟩] else [], []⟩
    [⟨"nice post", "comment-item", ""⟩] (by decide) (by decide)).2

/-- C9: on acquisition, a held browser that is disconnected or unused for
longer than the 30-minute timeout is torn down (the static slot is cleared
and replaced whether or not the close fails, so teardown errors never
propagate) and a fresh browser is stored and returned; a held browser that
is connected and within the timeout is returned as-is with its last-used
timestamp refreshed. -/
theorem rednote_c9 (s : BrowserState) (now : Nat) (connected closeFails : Bool)
    (fresh b : Nat) :
    (s.browserInstance = some b →
      (connected = false ∨ BROWSER_TIMEOUT < now - s.lastUsed) →
      getBrowser s now connected closeFails fresh =
        (fresh, ⟨some fresh, now⟩)) ∧
    (s.browserInstance = some b → connected = true →
      now - s.lastUsed ≤ BROWSER_TIMEOUT →
      getBrowser s now connected closeFails fresh = (b, ⟨some b, now⟩)) ∧
    getBrowser s now connected true fresh =
      getBrowser s now connected false fresh := by
  refine ⟨?_, ?_, ?_⟩
  · intro hb hbad
    have hvalid : isBrowserValid s now connected = false := by
      rcases hbad with hc | he
      · simp [isBrowserValid, hb, hc]
      · simp [isBrowserValid, hb, he]
    have hclean : cleanupBrowserInstance s closeFails = ⟨none, s.lastUsed⟩ := by
      unfold cleanupBrowserInstance
      rw [hb]
      cases closeFails <;> rfl
    simp [getBrowser, hvalid, hclean]
  · intro hb hc hle
    have hvalid : isBrowserValid s now connected = true := by
      simp [isBrowserValid, hb, hc]
      omega
    simp [getBrowser, hvalid, hb]
  · have hcl : cleanupBrowserInstance s true = cleanupBrowserInstance s false := by
      unfold cleanupBrowserInstance
      cases s.browserInstance <;> rfl
    simp [getBrowser, hcl]

/-- Witness for C9: a disconnected instance is replaced; a live, recent
instance is reused with a refreshed timestamp. -/
theorem rednote_c9_witness :
    getBrowser ⟨some 5, 0⟩ 0 false true 7 = (7, ⟨some 7, 0⟩) ∧
    getBrowser ⟨some 5, 0⟩ 10 true false 7 = (5, ⟨some 5, 10⟩) :=
  ⟨(rednote_c9 ⟨some 5, 0⟩ 0 false true 7 5).1 rfl (Or.inl rfl),
   (rednote_c9 ⟨some 5, 0⟩ 10 true false 7 5).2.1 rfl rfl (by decide)⟩

/-- C10: publishNote validates before any remote work: an empty or
whitespace title or content, an empty image list, or any invalid image
(missing, not a regular file, extension outside jpg/jpeg/png/gif/webp, or
more than 18 valid images) makes the call fail with a validation error
while the retry-wrapped remote phase — which alone contains the rate-limit
wait and browser interaction — never runs. -/
theorem rednote_c10 (fsys : FileSys) (title content : String)
    (imagePaths : List String) (tags : String)
    (remote : Nat → Except String PublishOutcome) :
    ((strTrim title = "" ∨ strTrim content = "" ∨ imagePaths = [] ∨
      (∃ e, validateImagePaths fsys imagePaths = .error e)) →
      (∃ e, (publishNote fsys title content imagePaths tags remote).1 =
        .error e) ∧
      (publishNote fsys title content imagePaths tags remote).2 = []) ∧
    (∀ p ∈ imagePaths,
      (fsys.pathExists (fsys.resolve p) = false ∨
       fsys.isFile (fsys.resolve p) = false ∨
       allowedExtensions.contains (extOf p) = false) →
      ∃ e, validateImagePaths fsys imagePaths = .error e) ∧
    (∀ v, validateLoop fsys imagePaths = .ok v → 18 < v.length →
      validateImagePaths fsys imagePaths = .error "Maximum 18 images allowed") := by
  refine ⟨?_, ?_, ?_⟩
  · intro hbad
    by_cases h1 : strTrim title = ""
    · exact ⟨⟨"Note title cannot be empty", by simp [publishNote, h1]⟩,
        by simp [publishNote, h1]⟩
    · by_cases h2 : strTrim content = ""
      · exact ⟨⟨"Note content cannot be empty", by simp [publishNote, h1, h2]⟩,
          by simp [publishNote, h1, h2]⟩
      · by_cases h3 : imagePaths = []
        · exact ⟨⟨"At least one image is required", by simp [publishNote, h1, h2, h3]⟩,
            by simp [publishNote, h1, h2, h3]⟩
        · have hv : ∃ e, validateImagePaths fsys imagePaths = .error e := by
            rcases hbad with hb | hb | hb | hb
            · exact absurd hb h1
            · exact absurd hb h2
            · exact absurd hb h3
            · exact hb
          obtain ⟨e, he⟩ := hv
          exact ⟨⟨e, by simp [publishNote, h1, h2, h3, he]⟩,
            by simp [publishNote, h1, h2, h3, he]⟩
  · intro p hp hbad
    obtain ⟨e, he⟩ := validateLoop_err_of_bad imagePaths fsys p hp hbad
    exact ⟨e, by simp [validateImagePaths, he]⟩
  · intro v hok hlen
    simp [validateImagePaths, hok, hlen]

/-- Witness for C10: an empty title is rejected with no remote attempt,
a missing image file fails validation, and a 19-image list of valid files
is rejected by the 18-image cap. -/
theorem rednote_c10_witness :
    ((∃ e, (publishNote ⟨fun p => p, fun _ => false, fun _ => false⟩ "" "c"
        ["a.jpg"] "" (fun _ => .error "x")).1 = .error e) ∧
     (publishNote ⟨fun p => p, fun _ => false, fun _ => false⟩ "" "c"
        ["a.jpg"] "" (fun _ => .error "x")).2 = []) ∧
    (∃ e, validateImagePaths ⟨fun p => p, fun _ => false, fun _ => false⟩
        ["a.jpg"] = .error e) ∧
    validateImagePaths ⟨fun p => p, fun _ => true, fun _ => true⟩
        (List.replicate 19 "a.jpg") = .error "Maximum 18 images allowed" :=
  ⟨(rednote_c10 ⟨fun p => p, fun _ => false, fun _ => false⟩ "" "c" ["a.jpg"] ""
      (fun _ => .error "x")).1 (Or.inl rfl),
   (rednote_c10 ⟨fun p => p, fun _ => false, fun _ => false⟩ "t" "c" ["a.jpg"] ""
      (fun _ => .error "x")).2.1 "a.jpg" (List.mem_singleton.mpr rfl)
      (Or.inl rfl),
   (rednote_c10 ⟨fun p => p, fun _ => true, fun _ => true⟩ "t" "c"
      (List.replicate 19 "a.jpg") "" (fun _ => .error "x")).2.2
      (List.replicate 19 "a.jpg") rfl (by decide)⟩

/-- C3: the claim that a failed construction leaves the shared slot unset
so that waiting callers retry is false on the code: `globalRedNoteTools` is
assigned before `initialize()` is awaited, so on a concrete two-caller run
the second caller has already received the still-initializing instance, and
after the failure the flag is clear but the slot still holds instance 0 and
no retry construction ever happened (the counter stays at one). -/
theorem rednote_c3_counterexample :
    ReachAny (initCoordConfig 2) coordCfgB ∧
    CoordStep coordCfgB 0 true coordCfgC ∧
    coordCfgC.g.isInitializing = false ∧
    coordCfgC.g.globalTools ≠ none ∧
    coordCfgC.tasks.get? 1 = some (.done (some 0)) ∧
    coordCfgC.g.nextId = 1 := by
  refine ⟨?_, CoordStep.initFail coordCfgB 0 rfl, rfl, by decide, rfl, rfl⟩
  have s1 : StepAny (initCoordConfig 2)
      ⟨⟨some 0, true, 1⟩, [.initializing, .start]⟩ :=
    ⟨0, false, CoordStep.startConstruct (initCoordConfig 2) 0 rfl rfl rfl⟩
  have s2 : StepAny (⟨⟨some 0, true, 1⟩, [.initializing, .start]⟩ : CoordConfig)
      coordCfgB :=
    ⟨1, false, CoordStep.startFast ⟨⟨some 0, true, 1⟩, [.initializing, .start]⟩
      1 0 rfl rfl⟩
  exact Relation.ReflTransGen.head s1 (Relation.ReflTransGen.single s2)

/-- C3 (amended): if `initialize()` fails inside getRedNoteTools, the
in-flight flag is cleared and the exception propagates only to the caller
that performed construction (all other program counters are untouched);
but the shared slot keeps the instance that was assigned before
initialization — it is not unset — so every caller that completes from then
on receives that same partially-constructed instance 0 and no second
construction is ever started. -/
theorem rednote_c3_amended (callers : Nat) (c c' c2 : CoordConfig) (i : Nat)
    (hreach : ReachAny (initCoordConfig callers) c)
    (hfail : CoordStep c i true c')
    (hafter : ReachAny c' c2) :
    c'.g.isInitializing = false ∧
    c'.g.globalTools = some 0 ∧
    c'.tasks.get? i = some .failed ∧
    (∀ j, j ≠ i → c'.tasks.get? j = c.tasks.get? j) ∧
    c2.g.nextId = 1 ∧
    (∀ j r, c2.tasks.get? j = some (.done r) → r = some 0) := by
  have inv : CoordInv c := reachAny_inv (initCoordConfig_inv callers) hreach
  have inv' : CoordInv c' := coordStep_inv inv hfail
  have inv2 : CoordInv c2 := reachAny_inv inv' hafter
  have hi : c.tasks.get? i = some .initializing := by
    cases hfail with | initFail hi => exact hi
  have hc' : c' = ⟨⟨c.g.globalTools, false, c.g.nextId⟩, c.tasks.set i .failed⟩ := by
    cases hfail; rfl
  have hflag : c.g.isInitializing = true := by
    cases hfi : c.g.isInitializing
    · exact absurd hi (inv.flag_clear hfi i)
    · rfl
  have hslot : c.g.globalTools = some 0 := inv.flag_slot hflag
  have hnext : c.g.nextId = 1 := by
    have h0 := inv.nextId_le
    have h1 : c.g.nextId ≠ 0 := by
      intro h
      have hn := inv.slot_iff.mpr h
      rw [hslot] at hn; cases hn
    omega
  refine ⟨by rw [hc'], by rw [hc']; exact hslot, ?_, ?_, ?_, ?_⟩
  · rw [hc']
    exact listGet_set_self TaskPC.failed hi
  · intro j hji
    rw [hc']
    exact listGet_set c.tasks i j .failed ▸ if_neg (fun hh => hji hh.symm)
  · have hmono := reachAny_nextId_mono hafter
    have h2 := inv2.nextId_le
    have h3 : c'.g.nextId = 1 := by rw [hc']; exact hnext
    omega
  · intro j r hj
    exact (inv2.done_zero j r hj).1

/-- Witness for C3 (amended) on the concrete two-caller failing run. -/
theorem rednote_c3_amended_witness :
    coordCfgC.g.isInitializing = false ∧
    coordCfgC.g.globalTools = some 0 ∧
    coordCfgC.tasks.get? 0 = some .failed ∧
    (∀ j, j ≠ 0 → coordCfgC.tasks.get? j = coordCfgB.tasks.get? j) ∧
    coordCfgC.g.nextId = 1 ∧
    (∀ j r, coordCfgC.tasks.get? j = some (.done r) → r = some 0) := by
  have hreach : ReachAny (initCoordConfig 2) coordCfgB := by
    have s1 : StepAny (initCoordConfig 2)
        ⟨⟨some 0, true, 1⟩, [.initializing, .start]⟩ :=
      ⟨0, false, CoordStep.startConstruct (initCoordConfig 2) 0 rfl rfl rfl⟩
    have s2 : StepAny (⟨⟨some 0, true, 1⟩, [.initializing, .start]⟩ : CoordConfig)
        coordCfgB :=
      ⟨1, false, CoordStep.startFast ⟨⟨some 0, true, 1⟩, [.initializing, .start]⟩
        1 0 rfl rfl⟩
    exact Relation.ReflTransGen.head s1 (Relation.ReflTransGen.single s2)
  exact rednote_c3_amended 2 coordCfgB coordCfgC coordCfgC 0 hreach
    (CoordStep.initFail coordCfgB 0 rfl) Relation.ReflTransGen.refl

/-- C4: along any success-only execution from C callers and no ready
instance, construction is mutually exclusive (at most one task is ever
mid-construction), at most one construction is ever started, every caller
that has returned got instance 0, a completed run has started exactly one
construction, and from any reachable point a schedule exists completing
every caller with that same instance 0. -/
theorem rednote_c4 (callers : Nat) (c : CoordConfig) (hC : 1 ≤ callers)
    (hreach : ReachOk (initCoordConfig callers) c) :
    (∀ i j, c.tasks.get? i = some .initializing →
      c.tasks.get? j = some .initializing → i = j) ∧
    c.g.nextId ≤ 1 ∧
    (∀ i r, c.tasks.get? i = some (.done r) → r = some 0) ∧
    ((∀ i pc, c.tasks.get? i = some pc → ∃ r, pc = .done r) → c.g.nextId = 1) ∧
    (∃ c', ReachOk c c' ∧ ∀ i pc, c'.tasks.get? i = some pc →
      pc = .done (some 0)) := by
  have inv : CoordInv c := reachOk_inv (initCoordConfig_inv callers) hreach
  have hnf : NoFailed c := reachOk_noFailed hreach
  refine ⟨inv.init_unique, inv.nextId_le,
    fun i r h => (inv.done_zero i r h).1, ?_, ?_⟩
  · intro halldone
    have hlen : c.tasks.length = callers := by
      rw [reachOk_length hreach]
      simp [initCoordConfig]
    have h0 : ∃ pc, c.tasks.get? 0 = some pc := by
      cases hg : c.tasks.get? 0 with
      | none =>
        have hn := List.get?_eq_none.mp hg
        omega
      | some pc => exact ⟨pc, rfl⟩
    obtain ⟨pc, hg⟩ := h0
    obtain ⟨r, rfl⟩ := halldone 0 pc hg
    have hslot := (inv.done_zero 0 r hg).2
    have h1 : c.g.nextId ≠ 0 := by
      intro h
      have hn := inv.slot_iff.mpr h
      rw [hslot] at hn; cases hn
    have h2 := inv.nextId_le
    omega
  · exact coordProgress (taskMeasure c) c rfl inv hnf

/-- Witness for C4 at one caller standing at the entry point. -/
theorem rednote_c4_witness :
    (∀ i j, (initCoordConfig 1).tasks.get? i = some .initializing →
      (initCoordConfig 1).tasks.get? j = some .initializing → i = j) ∧
    (initCoordConfig 1).g.nextId ≤ 1 ∧
    (∀ i r, (initCoordConfig 1).tasks.get? i = some (.done r) → r = some 0) ∧
    ((∀ i pc, (initCoordConfig 1).tasks.get? i = some pc → ∃ r, pc = .done r) →
      (initCoordConfig 1).g.nextId = 1) ∧
    (∃ c', ReachOk (initCoordConfig 1) c' ∧ ∀ i pc, c'.tasks.get? i = some pc →
      pc = .done (some 0)) :=
  rednote_c4 1 (initCoordConfig 1) (by decide) Relation.ReflTransGen.refl
